import Mathlib

/-!
Verification development for the intelephense source-analysis core:
a shallow embedding of `src/parsedDocument.ts` and `src/completionProvider.ts`
together with proofs of the specified properties.

External collaborators (the php7parser grammar, the text buffer, the symbol
index, the fuzzy matcher and the LSP type library) are modelled as parameters
or as plain data, exactly as far as the embedded code reads them.
-/

namespace Intelephense

/-- Token type tags from the php7parser library (external).  Only the tags the
embedded code mentions are modelled; equality is all that is used. -/
inductive TokenType where
  | Backslash
  | Name
  | ColonColon
  | VariableName
  | Dollar
  | Arrow
  | Whitespace
deriving DecidableEq, Repr

/-- Phrase type tags from the php7parser library (external).  Only the tags the
embedded code mentions are modelled; equality is all that is used. -/
inductive PhraseType where
  | NamespaceName
  | FullyQualifiedName
  | QualifiedName
  | RelativeQualifiedName
  | ClassTypeDesignator
  | ScopedCallExpression
  | ErrorScopedAccessExpression
  | ClassConstantAccessExpression
  | ScopedPropertyAccessExpression
  | ScopedMemberName
  | SimpleVariable
  | Identifier
  | PropertyAccessExpression
  | MethodCallExpression
  | StatementList
  | FunctionDeclaration
deriving DecidableEq, Repr

/-- Leaf token data: type tag, offset and length (§3 of the spec). -/
structure Token where
  tokenType : TokenType
  offset : Nat
  length : Nat
deriving DecidableEq, Repr

mutual
/-- Syntax tree node: tagged union of a leaf `token` and a composite `phrase`
with an ordered child sequence (php7parser's `Token | Phrase`). -/
inductive PNode where
  | token (tokenType : TokenType) (offset : Nat) (length : Nat)
  | phrase (phraseType : PhraseType) (children : PNodeList)

/-- Ordered child sequence of a phrase. -/
inductive PNodeList where
  | nil
  | cons (head : PNode) (tail : PNodeList)
end

/-- Editor-facing position: zero-based (line, character) pair. -/
structure Position where
  line : Nat
  character : Nat
deriving DecidableEq, Repr

/-- Editor-facing range.  The TS field `end` is a Lean keyword, hence `end_`. -/
structure Range where
  start : Position
  end_ : Position
deriving DecidableEq, Repr

namespace ParsedDocument

/-- Embeds `ParsedDocument.isToken(node, types)`: node is a leaf whose token
type is among `types`.  `none` models a `null`/`undefined` node. -/
def isToken (node : Option PNode) (types : List TokenType) : Bool :=
  match node with
  | some (PNode.token tt _ _) => decide (tt ∈ types)
  | _ => false

/-- Embeds `ParsedDocument.isPhrase(node, types)`: node is a phrase whose
phrase type is among `types`.  `none` models a `null`/`undefined` node. -/
def isPhrase (node : Option PNode) (types : List PhraseType) : Bool :=
  match node with
  | some (PNode.phrase pt _) => decide (pt ∈ types)
  | _ => false

mutual
/-- Embeds `ParsedDocument.firstToken`: a token node is returned itself;
for a phrase the children are searched first-to-last and the first
recursive hit is returned; `none` when the subtree holds no token. -/
def firstToken : PNode → Option Token
  | PNode.token tt o l => some ⟨tt, o, l⟩
  | PNode.phrase _ cs => firstTokenList cs

/-- Child-list loop of `firstToken` (the `for` loop over `children`). -/
def firstTokenList : PNodeList → Option Token
  | PNodeList.nil => none
  | PNodeList.cons h t =>
    match firstToken h with
    | some tk => some tk
    | none => firstTokenList t
end

mutual
/-- Embeds `ParsedDocument.lastToken`: like `firstToken` but the children are
searched last-to-first. -/
def lastToken : PNode → Option Token
  | PNode.token tt o l => some ⟨tt, o, l⟩
  | PNode.phrase _ cs => lastTokenList cs

/-- Child-list loop of `lastToken` (the reverse `for` loop over `children`). -/
def lastTokenList : PNodeList → Option Token
  | PNodeList.nil => none
  | PNodeList.cons h t =>
    match lastTokenList t with
    | some tk => some tk
    | none => lastToken h
end

mutual
/-- Specification-side measure: the descendant tokens of a node in document
order.  Used to state the range-soundness properties. -/
def tokensOf : PNode → List Token
  | PNode.token tt o l => [⟨tt, o, l⟩]
  | PNode.phrase _ cs => tokensOfList cs

/-- Descendant tokens of a child list, in document order. -/
def tokensOfList : PNodeList → List Token
  | PNodeList.nil => []
  | PNodeList.cons h t => tokensOf h ++ tokensOfList t
end

/-- Embeds `ParsedDocument.phraseRange`: the span from the first to the last
token, mapped through the text document's `positionAtOffset` (external,
passed as `posAt`); `none` when either search comes back empty. -/
def phraseRange (posAt : Nat → Position) (p : PNode) : Option Range :=
  match firstToken p, lastToken p with
  | some tFirst, some tLast =>
    some { start := posAt tFirst.offset, end_ := posAt (tLast.offset + tLast.length) }
  | _, _ => none

end ParsedDocument

/-- One range replacement of an edit batch (`lsp.TextDocumentContentChangeEvent`):
the addressed range and the replacement text. -/
structure TextDocumentContentChangeEvent where
  range : Range
  text : String
deriving DecidableEq, Repr

namespace ParsedDocument

/-- Embeds `ParsedDocument._textDocumentChangeCompareFn`: `-1` when `a`'s end
line is greater, `1` when smaller, otherwise the difference of the end
characters `b - a` (so greater end character sorts first). -/
def textDocumentChangeCompareFn (a b : TextDocumentContentChangeEvent) : Int :=
  if a.range.end_.line > b.range.end_.line then -1
  else if a.range.end_.line < b.range.end_.line then 1
  else (b.range.end_.character : Int) - (a.range.end_.character : Int)

/-- Boolean `a` sorts no later than `b` under the comparator, the order a
comparator-based sort establishes. -/
def changeLe (a b : TextDocumentContentChangeEvent) : Bool :=
  textDocumentChangeCompareFn a b ≤ 0

/-- Embeds `ParsedDocument.applyChanges`: the batch is sorted with the
comparator (JS `Array.prototype.sort`, stable, modelled by `mergeSort`) and
each change is applied in that order to the text buffer via the external
`applyEdit` of the text document, threaded as a fold.  The trailing
debounced-reparse scheduling of the source touches no buffer state and is
not modelled. -/
def applyChanges {α : Type} (applyEdit : α → TextDocumentContentChangeEvent → α)
    (textDocument : α) (contentChanges : List TextDocumentContentChangeEvent) : α :=
  (contentChanges.mergeSort changeLe).foldl applyEdit textDocument

/-- Decimal digits of a natural number, most significant first; the digit
sequence JS `Number.prototype.toString` renders. -/
def natDigits (n : Nat) : List Nat :=
  if _h : n < 10 then [n]
  else natDigits (n / 10) ++ [n % 10]
termination_by n
decreasing_by
  exact Nat.div_lt_self (by omega) (by omega)

/-- The character of one decimal digit. -/
def digitChar (d : Nat) : Char :=
  if d = 0 then '0' else if d = 1 then '1' else if d = 2 then '2'
  else if d = 3 then '3' else if d = 4 then '4' else if d = 5 then '5'
  else if d = 6 then '6' else if d = 7 then '7' else if d = 8 then '8' else '9'

/-- Decimal rendering of a natural number, as JS number-to-string conversion
produces inside `Array.prototype.join`. -/
def natRepr (n : Nat) : String :=
  String.mk ((natDigits n).map digitChar)

/-- The `[start.line, start.character, end.line, end.character].join('#')`
suffix of `createAnonymousName`. -/
def anonymousNameSuffix (range : Range) : String :=
  natRepr range.start.line ++ "#" ++ natRepr range.start.character ++ "#" ++
    natRepr range.end_.line ++ "#" ++ natRepr range.end_.character

/-- Embeds `ParsedDocument.createAnonymousName`: the synthetic identifier
derived from the node's range.  The source reads `range.start` without a null
check, so a token-less node makes it throw a `TypeError`; `none` models that
thrown error, `some` the normal return. -/
def createAnonymousName (posAt : Nat → Position) (node : PNode) : Option String :=
  match phraseRange posAt node with
  | none => none
  | some range => some ("#anonymous#" ++ anonymousNameSuffix range)

end ParsedDocument

/- Modelled from the spec: `SymbolKind` lives in `symbol.ts`, which is not
under `src/`; the spec treats it as a set of distinct kind tags combined in
bit-mask tests, so the tags are modelled as distinct powers of two. -/
namespace SymbolKind

def Class : Nat := 1
def Interface : Nat := 2
def Trait : Nat := 4
def Constant : Nat := 8
def Property : Nat := 16
def Method : Nat := 32
def Function : Nat := 64
def Parameter : Nat := 128
def Variable : Nat := 256
def Namespace : Nat := 512
def ClassConstant : Nat := 1024

end SymbolKind

/- Modelled from the spec: `SymbolModifier` lives in `symbol.ts`, which is
not under `src/`; the spec treats it as a set of distinct modifier flags
combined in bit-mask tests, so the flags are modelled as distinct powers of
two. -/
namespace SymbolModifier

def Public : Nat := 1
def Protected : Nat := 2
def Private : Nat := 4
def Final : Nat := 8
def Abstract : Nat := 16
def Static : Nat := 32
def Anonymous : Nat := 512
def Use : Nat := 4096

end SymbolModifier

/-- Modelled from the spec: the candidate symbol record of the symbol index
(`PhpSymbol` in `symbol.ts`, not under `src/`), restricted to the fields the
completion code reads.  `associated` is modelled by the names of the
associated symbols, since only `associated[0].name` is read; `type` by its
string rendering, since only `type.toString()` is read; `location` by a mere
presence flag rendered as an optional URI, since only its truthiness is read. -/
structure PhpSymbol where
  kind : Nat
  name : String
  modifiers : Nat := 0
  description : Option String := none
  type : Option String := none
  associated : List String := []
  location : Option String := none
deriving DecidableEq, Repr

/- Modelled from the spec: numeric enumeration values of the external
`vscode-languageserver-types` library (`lsp.CompletionItemKind`,
`lsp.SymbolKind`), per the LSP specification. -/
namespace lsp

def CompletionItemKind.Keyword : Nat := 14
def CompletionItemKind.Method : Nat := 2
def CompletionItemKind.Value : Nat := 12
def CompletionItemKind.Property : Nat := 10
def SymbolKind.Class : Nat := 5
def SymbolKind.Constructor : Nat := 9
def SymbolKind.Function : Nat := 12
def SymbolKind.Variable : Nat := 13
def SymbolKind.Constant : Nat := 14
def SymbolKind.String : Nat := 15

end lsp

/-- Completion candidate presented to the editor (`lsp.CompletionItem`,
restricted to the fields the embedded code writes).  The code stores both
`lsp.CompletionItemKind` and `lsp.SymbolKind` numbers in `kind`. -/
structure CompletionItem where
  label : String
  kind : Nat
  detail : Option String := none
  documentation : Option String := none
  insertText : Option String := none
  insertTextFormat : Option Nat := none
deriving DecidableEq, Repr

/-- Completion result (`lsp.CompletionList`): ordered items plus the
truncation flag. -/
structure CompletionList where
  items : List CompletionItem
  isIncomplete : Bool
deriving DecidableEq, Repr

/-- Embeds `noCompletionResponse`: the empty, non-incomplete result. -/
def noCompletionResponse : CompletionList :=
  { items := [], isIncomplete := false }

/-- A member lookup submitted to the symbol index: type name plus member
acceptance predicate (`MemberQuery` of `symbol.ts`). -/
structure MemberQuery where
  typeName : String
  memberPredicate : PhpSymbol → Bool

/-- Embeds `keywordCompletionItems`: every keyword passing the (external)
fuzzy match against `text` becomes a keyword item, in list order. -/
def keywordCompletionItems (fuzzyStringMatch : String → String → Bool)
    (keywords : List String) (text : String) : List CompletionItem :=
  (keywords.filter (fun kw => fuzzyStringMatch text kw)).map
    (fun kw => { label := kw, kind := lsp.CompletionItemKind.Keyword })

/-- Embeds `symbolKindToLspSymbolKind`. -/
def symbolKindToLspSymbolKind (kind : Nat) : Nat :=
  if kind = SymbolKind.Class then lsp.SymbolKind.Class
  else if kind = SymbolKind.Function then lsp.SymbolKind.Function
  else if kind = SymbolKind.Constant then lsp.SymbolKind.Constant
  else lsp.SymbolKind.String

/-- Embeds `toNameCompletionItem`, including the name-shortening rule:
drop the current namespace prefix, else prepend a leading backslash when the
name form is not fully qualified and the symbol is not an import alias, else
show the aliased original name as detail. -/
def toNameCompletionItem (s : PhpSymbol) (ns : String) (namePhraseType : PhraseType)
    (kind : Option Nat) : CompletionItem :=
  let label := s.name
  let detail := s.name
  let pair : String × String :=
    if ns ≠ "" ∧ ns.isPrefixOf s.name ∧ label.length > ns.length + 1 then
      (label.drop (ns.length + 1), detail)
    else if ns ≠ "" ∧ namePhraseType ≠ PhraseType.FullyQualifiedName ∧
        s.modifiers &&& SymbolModifier.Use = 0 then
      ("\\" ++ label, detail)
    else if s.modifiers &&& SymbolModifier.Use > 0 ∧ s.associated ≠ [] then
      (label, s.associated.headD detail)
    else (label, detail)
  let kind := match kind with
    | some k => k
    | none => symbolKindToLspSymbolKind s.kind
  { label := pair.1, kind := kind, detail := some pair.2,
    documentation := s.description,
    insertText := some (pair.1 ++ "($0)"), insertTextFormat := some 2 }

/-- Embeds `toMethodCompletionItem`. -/
def toMethodCompletionItem (s : PhpSymbol) : CompletionItem :=
  { kind := lsp.CompletionItemKind.Method, label := s.name,
    documentation := s.description, detail := some "" }

/-- Embeds `toClassConstantCompletionItem`. -/
def toClassConstantCompletionItem (s : PhpSymbol) : CompletionItem :=
  { kind := lsp.CompletionItemKind.Value, label := s.name,
    documentation := s.description }

/-- Embeds `toPropertyCompletionItem`: a non-static property label drops the
leading `$` sigil. -/
def toPropertyCompletionItem (s : PhpSymbol) : CompletionItem :=
  { kind := lsp.CompletionItemKind.Property,
    label := if s.modifiers &&& SymbolModifier.Static = 0 then s.name.drop 1 else s.name,
    documentation := s.description,
    detail := some (s.type.getD "") }

/-- Cursor context seen by a strategy's `canSuggest`: the node at the cursor
and the ancestor chain, nearest first (the `n`-th `traverser.parent()` call
of a freshly created traverser yields `ancestors[n-1]`, `null` past the
root, modelled `none`). -/
structure CursorCtx where
  node : PNode
  ancestors : List PNode

namespace ClassTypeDesignatorCompletion

/-- The keyword list of the class-type-designator strategy. -/
def keywords : List String := ["class", "static", "namespace"]

/-- Embeds `ClassTypeDesignatorCompletion.canSuggest`: a backslash or name
token whose parent is a namespace name, grandparent one of the qualified
name forms and great-grandparent a class-type designator. -/
def canSuggest (context : CursorCtx) : Bool :=
  ParsedDocument.isToken (some context.node) [TokenType.Backslash, TokenType.Name] &&
  ParsedDocument.isPhrase context.ancestors[0]? [PhraseType.NamespaceName] &&
  ParsedDocument.isPhrase context.ancestors[1]?
    [PhraseType.FullyQualifiedName, PhraseType.QualifiedName, PhraseType.RelativeQualifiedName] &&
  ParsedDocument.isPhrase context.ancestors[2]? [PhraseType.ClassTypeDesignator]

/-- Embeds `ClassTypeDesignatorCompletion._symbolFilter`: classes only,
excluding anonymous and abstract ones. -/
def symbolFilter (s : PhpSymbol) : Bool :=
  decide (s.kind = SymbolKind.Class) &&
  decide (s.modifiers &&& (SymbolModifier.Anonymous ||| SymbolModifier.Abstract) = 0)

/-- Embeds `ClassTypeDesignatorCompletion.completions`.  External
collaborators are parameters: the fuzzy matcher, the symbol index `match`,
the name resolver's relative resolution and current namespace; `text` is the
query text the name resolver extracted at the cursor (empty when extraction
failed), `qNamePhraseType` the phrase type of the qualified-name node. -/
def completions (maxSuggestions : Nat) (fuzzyStringMatch : String → String → Bool)
    (symbolStoreMatch : String → (PhpSymbol → Bool) → List PhpSymbol)
    (resolveRelative : String → String) (namespaceName : String)
    (qNamePhraseType : PhraseType) (text : String) : CompletionList :=
  if text = "" then noCompletionResponse
  else
    let items : List CompletionItem :=
      if qNamePhraseType = PhraseType.QualifiedName then
        keywordCompletionItems fuzzyStringMatch keywords text
      else []
    let text := if qNamePhraseType = PhraseType.RelativeQualifiedName then
        resolveRelative text
      else text
    let matches_ := symbolStoreMatch text symbolFilter
    let limit : Int := min (matches_.length : Int) ((maxSuggestions : Int) - items.length)
    let isIncomplete : Bool := (matches_.length : Int) > (maxSuggestions : Int) - items.length
    let items := items ++ (matches_.take limit.toNat).map
      (fun s => toNameCompletionItem s namespaceName qNamePhraseType
        (some lsp.SymbolKind.Constructor))
    { items := items, isIncomplete := isIncomplete }

end ClassTypeDesignatorCompletion

namespace SimpleVariableCompletion

/-- Embeds `SimpleVariableCompletion.canSuggest`: a dollar or variable-name
token inside a simple variable. -/
def canSuggest (context : CursorCtx) : Bool :=
  ParsedDocument.isToken (some context.node) [TokenType.Dollar, TokenType.VariableName] &&
  ParsedDocument.isPhrase context.ancestors[0]? [PhraseType.SimpleVariable]

/-- Embeds `SimpleVariableCompletion._isBuiltInGlobalVar`: a variable symbol
with no source location. -/
def isBuiltInGlobalVar (s : PhpSymbol) : Bool :=
  decide (s.kind = SymbolKind.Variable) && decide (s.location = none)

/-- Embeds `SimpleVariableCompletion._toCompletionItem`. -/
def toCompletionItem (s : PhpSymbol) : CompletionItem :=
  { label := s.name, kind := lsp.SymbolKind.Variable, documentation := s.description }

/-- The candidate set of the simple-variable strategy: the enclosing scope's
variable and parameter children whose names start with the query word, then
the built-in global variables from the index. -/
def varSymbols (symbolStoreMatch : String → (PhpSymbol → Bool) → List PhpSymbol)
    (scopeChildren : List PhpSymbol) (text : String) : List PhpSymbol :=
  scopeChildren.filter (fun x =>
    decide ((x.kind &&& (SymbolKind.Variable ||| SymbolKind.Parameter)) > 0) &&
    text.isPrefixOf x.name) ++
  symbolStoreMatch text isBuiltInGlobalVar

/-- Embeds `SimpleVariableCompletion.completions`.  `scopeChildren` are the
children of the context's enclosing scope symbol (external), `text` the
query word at the cursor. -/
def completions (maxSuggestions : Nat)
    (symbolStoreMatch : String → (PhpSymbol → Bool) → List PhpSymbol)
    (scopeChildren : List PhpSymbol) (text : String) : CompletionList :=
  if text = "" then noCompletionResponse
  else
    let varSymbols := varSymbols symbolStoreMatch scopeChildren text
    let limit := min varSymbols.length maxSuggestions
    let isIncomplete := decide (varSymbols.length > maxSuggestions)
    { items := (varSymbols.take limit).map toCompletionItem, isIncomplete := isIncomplete }

end SimpleVariableCompletion

namespace NameCompletion

/-- The statement-position keyword list of the general-name strategy. -/
def statementKeywords : List String :=
  ["__halt_compiler", "abstract", "break", "catch", "class", "const",
   "continue", "declare", "die", "do", "echo", "else", "elseif",
   "enddeclare", "endfor", "endforeach", "endif", "endswitch", "endwhile",
   "final", "finally", "for", "foreach", "function", "global", "goto", "if",
   "interface", "list", "namespace", "return", "static", "switch", "throw",
   "trait", "try", "unset", "use", "while"]

/-- The expression-position keyword list of the general-name strategy. -/
def expressionKeywords : List String :=
  ["array", "clone", "empty", "eval", "exit", "function", "include",
   "include_once", "isset", "new", "parent", "print", "require",
   "require_once", "static", "yield"]

/-- Embeds `NameCompletion.canSuggest`: a backslash or name token whose
immediate parent is one of the qualified name forms. -/
def canSuggest (context : CursorCtx) : Bool :=
  ParsedDocument.isToken (some context.node) [TokenType.Backslash, TokenType.Name] &&
  ParsedDocument.isPhrase context.ancestors[0]?
    [PhraseType.FullyQualifiedName, PhraseType.QualifiedName, PhraseType.RelativeQualifiedName]

/-- Embeds `NameCompletion._symbolFilter`: classes, functions and constants,
excluding anonymous symbols. -/
def symbolFilter (s : PhpSymbol) : Bool :=
  decide ((s.kind &&& (SymbolKind.Class ||| SymbolKind.Function ||| SymbolKind.Constant)) > 0) &&
  decide (s.modifiers &&& SymbolModifier.Anonymous = 0)

/-- The keyword items the general-name strategy pushes before consulting the
symbol index: expression keywords in a qualified name, plus statement
keywords when the qualified name sits directly in a statement list. -/
def keywordItems (fuzzyStringMatch : String → String → Bool)
    (qNamePhraseType qNameParentPhraseType : PhraseType) (text : String) :
    List CompletionItem :=
  if qNamePhraseType = PhraseType.QualifiedName then
    keywordCompletionItems fuzzyStringMatch expressionKeywords text ++
      (if qNameParentPhraseType = PhraseType.StatementList then
        keywordCompletionItems fuzzyStringMatch statementKeywords text
      else [])
  else []

/-- Embeds `NameCompletion.completions`.  External collaborators are
parameters as in `ClassTypeDesignatorCompletion.completions`;
`qNameParentPhraseType` is the phrase type of the qualified name's parent. -/
def completions (maxSuggestions : Nat) (fuzzyStringMatch : String → String → Bool)
    (symbolStoreMatch : String → (PhpSymbol → Bool) → List PhpSymbol)
    (resolveRelative : String → String) (namespaceName : String)
    (qNamePhraseType qNameParentPhraseType : PhraseType) (text : String) :
    CompletionList :=
  if text = "" then noCompletionResponse
  else
    let items := keywordItems fuzzyStringMatch qNamePhraseType qNameParentPhraseType text
    let text := if qNamePhraseType = PhraseType.RelativeQualifiedName then
        resolveRelative text
      else text
    let matches_ := symbolStoreMatch text symbolFilter
    let limit : Int := min (matches_.length : Int) ((maxSuggestions : Int) - items.length)
    let isIncomplete : Bool := (matches_.length : Int) > (maxSuggestions : Int) - items.length
    let items := items ++ (matches_.take limit.toNat).map
      (fun s => toNameCompletionItem s namespaceName qNamePhraseType none)
    { items := items, isIncomplete := isIncomplete }

end NameCompletion

namespace ScopedAccessCompletion

/-- Embeds `ScopedAccessCompletion.canSuggest`: a `::` token under a scoped
access expression, a variable-name token under a scoped member name, a `$`
token of a simple variable under a scoped member name, or an identifier
under a scoped member name. -/
def canSuggest (context : CursorCtx) : Bool :=
  let scopedAccessPhrases := [PhraseType.ScopedCallExpression,
    PhraseType.ErrorScopedAccessExpression, PhraseType.ClassConstantAccessExpression,
    PhraseType.ScopedPropertyAccessExpression]
  if ParsedDocument.isToken (some context.node) [TokenType.ColonColon] then
    ParsedDocument.isPhrase context.ancestors[0]? scopedAccessPhrases
  else if ParsedDocument.isToken (some context.node) [TokenType.VariableName] then
    ParsedDocument.isPhrase context.ancestors[0]? [PhraseType.ScopedMemberName]
  else if ParsedDocument.isToken (some context.node) [TokenType.Dollar] then
    ParsedDocument.isPhrase context.ancestors[0]? [PhraseType.SimpleVariable] &&
    ParsedDocument.isPhrase context.ancestors[1]? [PhraseType.ScopedMemberName]
  else
    ParsedDocument.isPhrase context.ancestors[0]? [PhraseType.Identifier] &&
    ParsedDocument.isPhrase context.ancestors[1]? [PhraseType.ScopedMemberName]

/-- Embeds `ScopedAccessCompletion._toCompletionItem`: class constants,
methods and properties are converted; any other kind throws
`Error('Invalid Argument')`, modelled by `Except.error`. -/
def toCompletionItem (s : PhpSymbol) : Except String CompletionItem :=
  if s.kind = SymbolKind.ClassConstant then Except.ok (toClassConstantCompletionItem s)
  else if s.kind = SymbolKind.Method then Except.ok (toMethodCompletionItem s)
  else if s.kind = SymbolKind.Property then Except.ok (toPropertyCompletionItem s)
  else Except.error "Invalid Argument"

/-- Embeds `ScopedAccessCompletion._createMembersPredicate` (unrelated-class
tier): static methods or properties, or class constants, neither private nor
protected, passing the fuzzy match. -/
def createMembersPredicate (fuzzyStringMatch : String → String → Bool)
    (text : String) : PhpSymbol → Bool := fun s =>
  (decide ((s.kind &&& (SymbolKind.Method ||| SymbolKind.Property)) > 0 ∧
      (s.modifiers &&& SymbolModifier.Static) > 0) ||
    decide (s.kind = SymbolKind.ClassConstant)) &&
  decide ((s.modifiers &&& (SymbolModifier.Private ||| SymbolModifier.Protected)) = 0) &&
  fuzzyStringMatch text s.name

/-- Embeds `ScopedAccessCompletion._createBaseMembersPredicate` (base-class
tier): like the unrelated tier, but only private members are excluded. -/
def createBaseMembersPredicate (fuzzyStringMatch : String → String → Bool)
    (text : String) : PhpSymbol → Bool := fun s =>
  (decide ((s.kind &&& (SymbolKind.Method ||| SymbolKind.Property)) > 0 ∧
      (s.modifiers &&& SymbolModifier.Static) > 0) ||
    decide (s.kind = SymbolKind.ClassConstant)) &&
  decide ((s.modifiers &&& SymbolModifier.Private) = 0) &&
  fuzzyStringMatch text s.name

/-- Embeds `ScopedAccessCompletion._createOwnMembersPredicate` (own-class
tier): no modifier restriction. -/
def createOwnMembersPredicate (fuzzyStringMatch : String → String → Bool)
    (text : String) : PhpSymbol → Bool := fun s =>
  (decide ((s.kind &&& (SymbolKind.Method ||| SymbolKind.Property)) > 0 ∧
      (s.modifiers &&& SymbolModifier.Static) > 0) ||
    decide (s.kind = SymbolKind.ClassConstant)) &&
  fuzzyStringMatch text s.name

/-- The member queries the scoped-access strategy submits: one per resolved
atomic class name, with the visibility tier chosen by comparing the type
name against the enclosing class and its immediate base. -/
def memberQueries (fuzzyStringMatch : String → String → Bool)
    (typeNames : List String) (text thisName thisBaseName : String) :
    List MemberQuery :=
  let memberPred := createMembersPredicate fuzzyStringMatch text
  let baseMemberPred := createBaseMembersPredicate fuzzyStringMatch text
  let ownMemberPred := createOwnMembersPredicate fuzzyStringMatch text
  typeNames.map (fun typeName =>
    { typeName := typeName,
      memberPredicate :=
        if typeName = thisName then ownMemberPred
        else if typeName = thisBaseName then baseMemberPred
        else memberPred })

/-- Embeds `ScopedAccessCompletion.completions`.  `typeNames` is the list of
atomic class names of the resolved type of the accessed expression
(external resolver), `lookupMembersOnTypes` the symbol index lookup
(external), `text` the query word, `thisName`/`thisBaseName` the enclosing
class and its immediate declared base. -/
def completions (maxSuggestions : Nat) (fuzzyStringMatch : String → String → Bool)
    (lookupMembersOnTypes : List MemberQuery → List PhpSymbol)
    (typeNames : List String) (text thisName thisBaseName : String) :
    Except String CompletionList :=
  if typeNames.length = 0 then Except.ok noCompletionResponse
  else
    let symbols := lookupMembersOnTypes
      (memberQueries fuzzyStringMatch typeNames text thisName thisBaseName)
    let isIncomplete := decide (symbols.length > maxSuggestions)
    let limit := min symbols.length maxSuggestions
    do
      let items ← (symbols.take limit).mapM toCompletionItem
      return { isIncomplete := isIncomplete, items := items }

end ScopedAccessCompletion

namespace ObjectAccessCompletion

/-- Embeds `ObjectAccessCompletion.canSuggest`: an arrow or name token under
a property access or method call expression. -/
def canSuggest (context : CursorCtx) : Bool :=
  if ParsedDocument.isToken (some context.node) [TokenType.Arrow] then
    ParsedDocument.isPhrase context.ancestors[0]?
      [PhraseType.PropertyAccessExpression, PhraseType.MethodCallExpression]
  else
    ParsedDocument.isToken (some context.node) [TokenType.Name] &&
    ParsedDocument.isPhrase context.ancestors[0]?
      [PhraseType.PropertyAccessExpression, PhraseType.MethodCallExpression]

/-- Embeds `ObjectAccessCompletion._toCompletionItem`: methods and properties
are converted; any other kind throws `Error('Invalid Argument')`, modelled
by `Except.error`. -/
def toCompletionItem (s : PhpSymbol) : Except String CompletionItem :=
  if s.kind = SymbolKind.Method then Except.ok (toMethodCompletionItem s)
  else if s.kind = SymbolKind.Property then Except.ok (toPropertyCompletionItem s)
  else Except.error "Invalid Argument"

/-- Embeds `ObjectAccessCompletion._createMembersPredicate` (unrelated-class
tier): methods or properties that are neither private, protected nor
static, passing the fuzzy match. -/
def createMembersPredicate (fuzzyStringMatch : String → String → Bool)
    (text : String) : PhpSymbol → Bool := fun s =>
  decide ((s.kind &&& (SymbolKind.Method ||| SymbolKind.Property)) > 0) &&
  decide ((s.modifiers &&& (SymbolModifier.Private ||| SymbolModifier.Protected |||
    SymbolModifier.Static)) = 0) &&
  fuzzyStringMatch text s.name

/-- Embeds `ObjectAccessCompletion._createBaseMembersPredicate` (base-class
tier), faithfully to the source's operator precedence: the source writes
`!(s.modifiers & SymbolModifier.Private | SymbolModifier.Static)`, and since
`&` binds tighter than `|` in JS this negates
`(s.modifiers & Private) | Static`. -/
def createBaseMembersPredicate (fuzzyStringMatch : String → String → Bool)
    (text : String) : PhpSymbol → Bool := fun s =>
  decide ((s.kind &&& (SymbolKind.Method ||| SymbolKind.Property)) > 0) &&
  decide (((s.modifiers &&& SymbolModifier.Private) ||| SymbolModifier.Static) = 0) &&
  fuzzyStringMatch text s.name

/-- Embeds `ObjectAccessCompletion._createOwnMembersPredicate` (own-class
tier): methods or properties that are not static. -/
def createOwnMembersPredicate (fuzzyStringMatch : String → String → Bool)
    (text : String) : PhpSymbol → Bool := fun s =>
  decide ((s.kind &&& (SymbolKind.Method ||| SymbolKind.Property)) > 0) &&
  decide ((s.modifiers &&& SymbolModifier.Static) = 0) &&
  fuzzyStringMatch text s.name

/-- The member queries the object-access strategy submits, tier chosen as in
the scoped strategy. -/
def memberQueries (fuzzyStringMatch : String → String → Bool)
    (typeNames : List String) (text thisName thisBaseName : String) :
    List MemberQuery :=
  let memberPred := createMembersPredicate fuzzyStringMatch text
  let basePred := createBaseMembersPredicate fuzzyStringMatch text
  let ownPred := createOwnMembersPredicate fuzzyStringMatch text
  typeNames.map (fun typeName =>
    { typeName := typeName,
      memberPredicate :=
        if typeName = thisName then ownPred
        else if typeName = thisBaseName then basePred
        else memberPred })

/-- Embeds `ObjectAccessCompletion.completions`, collaborators as in
`ScopedAccessCompletion.completions`. -/
def completions (maxSuggestions : Nat) (fuzzyStringMatch : String → String → Bool)
    (lookupMembersOnTypes : List MemberQuery → List PhpSymbol)
    (typeNames : List String) (text thisName thisBaseName : String) :
    Except String CompletionList :=
  if typeNames.length = 0 then Except.ok noCompletionResponse
  else
    let symbols := lookupMembersOnTypes
      (memberQueries fuzzyStringMatch typeNames text thisName thisBaseName)
    let isIncomplete := decide (symbols.length > maxSuggestions)
    let limit := min symbols.length maxSuggestions
    do
      let items ← (symbols.take limit).mapM toCompletionItem
      return { isIncomplete := isIncomplete, items := items }

end ObjectAccessCompletion

/-- A completion strategy as the provider dispatch sees it: the matcher
predicate and the producer.  The producer may throw (contract violations),
modelled by `Except`. -/
structure CompletionStrategy where
  canSuggest : CursorCtx → Bool
  completions : CursorCtx → Except String CompletionList

namespace CompletionProvider

/-- The ordered strategy list the constructor builds, most specific first.
The producers are abstract here since dispatch only consults `canSuggest`;
each strategy's producer is embedded separately above. -/
def strategies (ctdCompletions scopedCompletions objectCompletions
    simpleVariableCompletions nameCompletions : CursorCtx → Except String CompletionList) :
    List CompletionStrategy :=
  [{ canSuggest := ClassTypeDesignatorCompletion.canSuggest, completions := ctdCompletions },
   { canSuggest := ScopedAccessCompletion.canSuggest, completions := scopedCompletions },
   { canSuggest := ObjectAccessCompletion.canSuggest, completions := objectCompletions },
   { canSuggest := SimpleVariableCompletion.canSuggest, completions := simpleVariableCompletions },
   { canSuggest := NameCompletion.canSuggest, completions := nameCompletions }]

/-- Embeds `CompletionProvider.provideCompletions`: look the document up in
the store (`documentStoreFind`, the store's `find` keyed by URI, composed
with the external `Context` construction at the request position); if
absent return the empty result; otherwise run the first strategy whose
`canSuggest` holds, or the empty result when none does. -/
def provideCompletions (documentStoreFind : String → Option CursorCtx)
    (strategies : List CompletionStrategy) (uri : String) :
    Except String CompletionList :=
  match documentStoreFind uri with
  | none => Except.ok noCompletionResponse
  | some context =>
    match strategies.find? (fun s => s.canSuggest context) with
    | some strategy => strategy.completions context
    | none => Except.ok noCompletionResponse

end CompletionProvider

/-- The non-strict descending end-position order the comparator encodes. -/
def changeGe (a b : TextDocumentContentChangeEvent) : Prop :=
  b.range.end_.line < a.range.end_.line ∨
    (a.range.end_.line = b.range.end_.line ∧
      b.range.end_.character ≤ a.range.end_.character)

/-- The order two consecutive descendant tokens of a well-formed tree stand
in: monotonically non-decreasing start offsets and end offsets
left-to-right (§3's tree invariant). -/
def TokenOrder (a b : Token) : Prop :=
  a.offset ≤ b.offset ∧ a.offset + a.length ≤ b.offset + b.length

instance (a b : Token) : Decidable (TokenOrder a b) := by
  unfold TokenOrder; infer_instance

/-- A sample well-formed two-token qualified-name node. -/
def sampleQName : PNode :=
  PNode.phrase PhraseType.QualifiedName
    (PNodeList.cons (PNode.token TokenType.Name 4 3)
      (PNodeList.cons (PNode.token TokenType.Backslash 7 1) PNodeList.nil))

/-- Value of a most-significant-first decimal digit list; inverse measure
used to prove `natDigits` injective. -/
def natVal (ds : List Nat) : Nat :=
  ds.foldl (fun a d => 10 * a + d) 0

/-- A sample offset-to-position mapping: everything on line zero. -/
def posAtSample : Nat → Position := fun o => ⟨0, o⟩

/-- A sample phrase spanning offsets 2 to 5. -/
def sampleAnonNode1 : PNode :=
  PNode.phrase PhraseType.FunctionDeclaration
    (PNodeList.cons (PNode.token TokenType.Name 2 3) PNodeList.nil)

/-- A structurally different sample phrase spanning the same offsets 2 to 5. -/
def sampleAnonNode2 : PNode :=
  PNode.phrase PhraseType.FunctionDeclaration
    (PNodeList.cons (PNode.token TokenType.Backslash 2 1)
      (PNodeList.cons (PNode.token TokenType.Name 4 1) PNodeList.nil))

/-- The common range of the two sample phrases under `posAtSample`. -/
def sampleRange : Range := ⟨⟨0, 2⟩, ⟨0, 5⟩⟩

/-- A cursor context for a name token inside a class-type designator:
parent namespace name, grandparent qualified name, great-grandparent
class-type designator (the tree shape of `new Foo|`). -/
def ctdContext : CursorCtx :=
  { node := PNode.token TokenType.Name 10 1,
    ancestors := [PNode.phrase PhraseType.NamespaceName PNodeList.nil,
      PNode.phrase PhraseType.QualifiedName PNodeList.nil,
      PNode.phrase PhraseType.ClassTypeDesignator PNodeList.nil] }

/-- A sample strategy producer returning the empty result. -/
def sampleProducer : CursorCtx → Except String CompletionList :=
  fun _ => Except.ok noCompletionResponse

/-- Scenario of spec §8.6: class `A` has a private method `f`. -/
def fMethod : PhpSymbol :=
  { kind := SymbolKind.Method, name := "f", modifiers := SymbolModifier.Private }

/-- Scenario of spec §8.6: class `A` has a public method `g`. -/
def gMethod : PhpSymbol :=
  { kind := SymbolKind.Method, name := "g", modifiers := SymbolModifier.Public }

/-- A concrete symbol-index member lookup for the §8.6 scenario: class `A`
declares `f` and `g`; each query's members are filtered through its
acceptance predicate, in order. -/
def classAMembersLookup : List MemberQuery → List PhpSymbol := fun queries =>
  queries.flatMap (fun q =>
    (if q.typeName = "A" then [fMethod, gMethod] else []).filter q.memberPredicate)

/-- A sample public class symbol for the index. -/
def sampleClass (nm : String) : PhpSymbol :=
  { kind := SymbolKind.Class, name := nm }

theorem changeLe_iff (a b : TextDocumentContentChangeEvent) :
    ParsedDocument.changeLe a b = true ↔ changeGe a b := by
  simp only [ParsedDocument.changeLe, ParsedDocument.textDocumentChangeCompareFn,
    changeGe, decide_eq_true_eq]
  split_ifs with h1 h2 <;> omega

theorem changeLe_trans (a b c : TextDocumentContentChangeEvent) :
    ParsedDocument.changeLe a b → ParsedDocument.changeLe b c →
    ParsedDocument.changeLe a c := by
  simp only [changeLe_iff, changeGe]
  omega

theorem changeLe_total (a b : TextDocumentContentChangeEvent) :
    ParsedDocument.changeLe a b || ParsedDocument.changeLe b a := by
  simp only [Bool.or_eq_true, changeLe_iff, changeGe]
  omega

/-- Claim C4: `applyChanges` applies the edits of a batch in descending
end-position order: for every pair of edits in the applied order, the one
whose range end has the greater line comes first, and on equal lines the one
with the greater end character comes first; the applied sequence is a
permutation of the batch and the buffer is folded in exactly that order. -/
theorem claim_C4 (cs : List TextDocumentContentChangeEvent) :
    (cs.mergeSort ParsedDocument.changeLe).Perm cs ∧
    (cs.mergeSort ParsedDocument.changeLe).Pairwise changeGe ∧
    ∀ (α : Type) (applyEdit : α → TextDocumentContentChangeEvent → α)
      (textDocument : α),
      ParsedDocument.applyChanges applyEdit textDocument cs =
        (cs.mergeSort ParsedDocument.changeLe).foldl applyEdit textDocument := by
  refine ⟨List.mergeSort_perm cs _, ?_, fun α applyEdit textDocument => rfl⟩
  have h := List.sorted_mergeSort changeLe_trans changeLe_total cs
  exact h.imp (fun hab => (changeLe_iff _ _).mp hab)

mutual

theorem firstToken_eq_head : ∀ (n : PNode),
    ParsedDocument.firstToken n = (ParsedDocument.tokensOf n).head?
  | PNode.token _ _ _ => rfl
  | PNode.phrase _ cs => by
    simp only [ParsedDocument.firstToken, ParsedDocument.tokensOf]
    exact firstTokenList_eq_head cs

theorem firstTokenList_eq_head : ∀ (cs : PNodeList),
    ParsedDocument.firstTokenList cs = (ParsedDocument.tokensOfList cs).head?
  | PNodeList.nil => rfl
  | PNodeList.cons h t => by
    simp only [ParsedDocument.firstTokenList, ParsedDocument.tokensOfList]
    rw [firstToken_eq_head h, firstTokenList_eq_head t]
    rcases htoks : ParsedDocument.tokensOf h with _ | ⟨a, as⟩ <;> simp

end

mutual

theorem lastToken_eq_getLast : ∀ (n : PNode),
    ParsedDocument.lastToken n = (ParsedDocument.tokensOf n).getLast?
  | PNode.token _ _ _ => by
    simp [ParsedDocument.lastToken, ParsedDocument.tokensOf]
  | PNode.phrase _ cs => by
    simp only [ParsedDocument.lastToken, ParsedDocument.tokensOf]
    exact lastTokenList_eq_getLast cs

theorem lastTokenList_eq_getLast : ∀ (cs : PNodeList),
    ParsedDocument.lastTokenList cs = (ParsedDocument.tokensOfList cs).getLast?
  | PNodeList.nil => rfl
  | PNodeList.cons h t => by
    simp only [ParsedDocument.lastTokenList, ParsedDocument.tokensOfList]
    rw [lastToken_eq_getLast h, lastTokenList_eq_getLast t]
    rcases htoks : ParsedDocument.tokensOfList t with _ | ⟨a, as⟩
    · simp
    · simp only [List.getLast?_append]
      cases (a :: as).getLast? <;> simp [Option.or]

end

theorem pairwise_head_le {l : List Token} (hp : l.Pairwise TokenOrder) {f : Token}
    (hf : l.head? = some f) : ∀ t ∈ l, f.offset ≤ t.offset := by
  cases l with
  | nil => cases hf
  | cons a as =>
    simp only [List.head?_cons, Option.some.injEq] at hf
    subst hf
    intro t ht
    rcases List.mem_cons.mp ht with rfl | ht'
    · exact le_refl _
    · exact ((List.pairwise_cons.mp hp).1 t ht').1

theorem pairwise_getLast_le {l : List Token} (hp : l.Pairwise TokenOrder)
    {g : Token} (hg : l.getLast? = some g) :
    ∀ t ∈ l, t.offset + t.length ≤ g.offset + g.length := by
  induction l with
  | nil => cases hg
  | cons a as ih =>
    intro t ht
    cases as with
    | nil =>
      simp only [List.getLast?_singleton, Option.some.injEq] at hg
      simp only [List.mem_singleton] at ht
      subst hg; subst ht
      exact le_refl _
    | cons b bs =>
      have hg' : (b :: bs).getLast? = some g := by
        simpa using hg
      rcases List.mem_cons.mp ht with rfl | ht'
      · have hmem : g ∈ b :: bs :=
          List.mem_of_mem_getLast? (by simp [hg'])
        exact ((List.pairwise_cons.mp hp).1 g hmem).2
      · exact ih (List.pairwise_cons.mp hp).2 hg' t ht'

/-- Claim C5: under the tree invariant that descendant tokens are ordered
left-to-right, `firstToken` returns a token whose offset bounds every
descendant token's offset from below and `lastToken` one whose end bounds
every descendant's end from above; for a node with no descendant tokens both
searches return `none` and `phraseRange` returns `none` rather than
raising. -/
theorem claim_C5 (posAt : Nat → Position) (n : PNode)
    (hord : (ParsedDocument.tokensOf n).Pairwise TokenOrder) :
    (ParsedDocument.tokensOf n = [] →
      ParsedDocument.firstToken n = none ∧ ParsedDocument.lastToken n = none ∧
      ParsedDocument.phraseRange posAt n = none) ∧
    (ParsedDocument.tokensOf n ≠ [] →
      ∃ f g, ParsedDocument.firstToken n = some f ∧
        ParsedDocument.lastToken n = some g ∧
        (∀ t ∈ ParsedDocument.tokensOf n, f.offset ≤ t.offset) ∧
        (∀ t ∈ ParsedDocument.tokensOf n,
          t.offset + t.length ≤ g.offset + g.length)) := by
  constructor
  · intro hnil
    have h1 : ParsedDocument.firstToken n = none := by
      rw [firstToken_eq_head, hnil]; rfl
    have h2 : ParsedDocument.lastToken n = none := by
      rw [lastToken_eq_getLast, hnil]; rfl
    exact ⟨h1, h2, by simp [ParsedDocument.phraseRange, h1, h2]⟩
  · intro hne
    obtain ⟨f, hf⟩ : ∃ f, (ParsedDocument.tokensOf n).head? = some f := by
      rcases hh : (ParsedDocument.tokensOf n).head? with _ | f
      · exact absurd (List.head?_eq_none_iff.mp hh) hne
      · exact ⟨f, rfl⟩
    obtain ⟨g, hg⟩ : ∃ g, (ParsedDocument.tokensOf n).getLast? = some g := by
      rcases hh : (ParsedDocument.tokensOf n).getLast? with _ | g
      · exact absurd (List.getLast?_eq_none_iff.mp hh) hne
      · exact ⟨g, rfl⟩
    exact ⟨f, g, by rw [firstToken_eq_head]; exact hf,
      by rw [lastToken_eq_getLast]; exact hg,
      pairwise_head_le hord hf, pairwise_getLast_le hord hg⟩

/-- Witness for claim C5 at a concrete two-token node. -/
theorem claim_C5_witness :
    (ParsedDocument.tokensOf sampleQName).Pairwise TokenOrder ∧
    (ParsedDocument.tokensOf sampleQName ≠ [] →
      ∃ f g, ParsedDocument.firstToken sampleQName = some f ∧
        ParsedDocument.lastToken sampleQName = some g ∧
        (∀ t ∈ ParsedDocument.tokensOf sampleQName, f.offset ≤ t.offset) ∧
        (∀ t ∈ ParsedDocument.tokensOf sampleQName,
          t.offset + t.length ≤ g.offset + g.length)) :=
  ⟨by decide, (claim_C5 (fun o => ⟨0, o⟩) sampleQName (by decide)).2⟩

theorem natVal_append_digit (xs : List Nat) (d : Nat) :
    natVal (xs ++ [d]) = 10 * natVal xs + d := by
  simp [natVal, List.foldl_append]

theorem natVal_natDigits (n : Nat) :
    natVal (ParsedDocument.natDigits n) = n := by
  induction n using Nat.strong_induction_on with
  | _ n ih =>
    rw [ParsedDocument.natDigits]
    split_ifs with h
    · simp [natVal]
    · rw [natVal_append_digit, ih (n / 10) (Nat.div_lt_self (by omega) (by omega))]
      omega

theorem natDigits_lt_ten (n : Nat) : ∀ d ∈ ParsedDocument.natDigits n, d < 10 := by
  induction n using Nat.strong_induction_on with
  | _ n ih =>
    rw [ParsedDocument.natDigits]
    split_ifs with h
    · simpa using h
    · intro d hd
      rcases List.mem_append.mp hd with h1 | h2
      · exact ih (n / 10) (Nat.div_lt_self (by omega) (by omega)) d h1
      · simp only [List.mem_singleton] at h2
        subst h2
        exact Nat.mod_lt _ (by omega)

theorem digitChar_injOn : ∀ a < 10, ∀ b < 10,
    ParsedDocument.digitChar a = ParsedDocument.digitChar b → a = b := by
  decide

theorem digitChar_ne_hash (d : Nat) : ParsedDocument.digitChar d ≠ '#' := by
  unfold ParsedDocument.digitChar
  split_ifs <;> decide

theorem map_digitChar_inj : ∀ (xs ys : List Nat), (∀ d ∈ xs, d < 10) →
    (∀ d ∈ ys, d < 10) →
    xs.map ParsedDocument.digitChar = ys.map ParsedDocument.digitChar → xs = ys := by
  intro xs
  induction xs with
  | nil =>
    intro ys _ _ h
    cases ys with
    | nil => rfl
    | cons b bs => simp at h
  | cons a as ih =>
    intro ys hx hy h
    cases ys with
    | nil => simp at h
    | cons b bs =>
      simp only [List.map_cons, List.cons.injEq] at h
      have hab : a = b :=
        digitChar_injOn a (hx a (by simp)) b (hy b (by simp)) h.1
      have hrest : as = bs :=
        ih bs (fun d hd => hx d (by simp [hd])) (fun d hd => hy d (by simp [hd])) h.2
      rw [hab, hrest]

theorem natRepr_inj {m n : Nat}
    (h : (ParsedDocument.natRepr m).data = (ParsedDocument.natRepr n).data) :
    m = n := by
  have hmap : (ParsedDocument.natDigits m).map ParsedDocument.digitChar =
      (ParsedDocument.natDigits n).map ParsedDocument.digitChar := h
  have hdig := map_digitChar_inj _ _ (natDigits_lt_ten m) (natDigits_lt_ten n) hmap
  have := congrArg natVal hdig
  rwa [natVal_natDigits, natVal_natDigits] at this

theorem natRepr_no_hash (n : Nat) : '#' ∉ (ParsedDocument.natRepr n).data := by
  intro hmem
  obtain ⟨d, _, hd⟩ := List.mem_map.mp hmem
  exact digitChar_ne_hash d hd

theorem hash_split : ∀ (x y u v : List Char), '#' ∉ x → '#' ∉ y →
    x ++ '#' :: u = y ++ '#' :: v → x = y ∧ u = v := by
  intro x
  induction x with
  | nil =>
    intro y u v _ hy h
    cases y with
    | nil => simpa using h
    | cons c cs =>
      simp only [List.nil_append, List.cons_append, List.cons.injEq] at h
      exact absurd (h.1 ▸ List.mem_cons_self c cs) hy
  | cons a as ih =>
    intro y u v hx hy h
    cases y with
    | nil =>
      simp only [List.cons_append, List.nil_append, List.cons.injEq] at h
      exact absurd (h.1 ▸ List.mem_cons_self a as) hx
  -- note: `h.1 : a = '#'` rewrites the head membership to the hash
    | cons b bs =>
      simp only [List.cons_append, List.cons.injEq] at h
      obtain ⟨hab, h2⟩ := h
      have hrest := ih bs u v (fun hm => hx (List.mem_cons_of_mem a hm))
        (fun hm => hy (List.mem_cons_of_mem b hm)) h2
      exact ⟨by rw [hab, hrest.1], hrest.2⟩

theorem anonymousNameSuffix_inj {r1 r2 : Range}
    (h : ParsedDocument.anonymousNameSuffix r1 = ParsedDocument.anonymousNameSuffix r2) :
    r1 = r2 := by
  obtain ⟨⟨a1, b1⟩, ⟨c1, d1⟩⟩ := r1
  obtain ⟨⟨a2, b2⟩, ⟨c2, d2⟩⟩ := r2
  have hd := congrArg String.data h
  simp only [ParsedDocument.anonymousNameSuffix, String.data_append,
    List.append_assoc] at hd
  simp only [List.singleton_append] at hd
  obtain ⟨ha, hd⟩ := hash_split _ _ _ _ (natRepr_no_hash a1) (natRepr_no_hash a2) hd
  obtain ⟨hb, hd⟩ := hash_split _ _ _ _ (natRepr_no_hash b1) (natRepr_no_hash b2) hd
  obtain ⟨hc, hd⟩ := hash_split _ _ _ _ (natRepr_no_hash c1) (natRepr_no_hash c2) hd
  rw [natRepr_inj ha, natRepr_inj hb, natRepr_inj hc, natRepr_inj hd]

/-- Claim C9: two phrases whose computed ranges have identical start and end
positions are given identical anonymous identifiers, and phrases whose
ranges differ in any of the four coordinates get distinct identifiers. -/
theorem claim_C9 (posAt1 posAt2 : Nat → Position) (p1 p2 : PNode) (r1 r2 : Range)
    (h1 : ParsedDocument.phraseRange posAt1 p1 = some r1)
    (h2 : ParsedDocument.phraseRange posAt2 p2 = some r2) :
    ParsedDocument.createAnonymousName posAt1 p1 =
      ParsedDocument.createAnonymousName posAt2 p2 ↔ r1 = r2 := by
  unfold ParsedDocument.createAnonymousName
  rw [h1, h2]
  constructor
  · intro h
    simp only [Option.some.injEq] at h
    have hsuffix : ParsedDocument.anonymousNameSuffix r1 =
        ParsedDocument.anonymousNameSuffix r2 := by
      have hd := congrArg String.data h
      simp only [String.data_append] at hd
      exact String.ext (List.append_cancel_left hd)
    exact anonymousNameSuffix_inj hsuffix
  · intro h
    rw [h]

/-- Witness for claim C9: two structurally different phrases spanning the
same source location receive the same anonymous identifier. -/
theorem claim_C9_witness :
    ParsedDocument.phraseRange posAtSample sampleAnonNode1 = some sampleRange ∧
    ParsedDocument.phraseRange posAtSample sampleAnonNode2 = some sampleRange ∧
    ParsedDocument.createAnonymousName posAtSample sampleAnonNode1 =
      ParsedDocument.createAnonymousName posAtSample sampleAnonNode2 :=
  ⟨rfl, rfl,
    (claim_C9 posAtSample posAtSample sampleAnonNode1 sampleAnonNode2
      sampleRange sampleRange rfl rfl).mpr rfl⟩

/-- Claim C10: `createAnonymousName` reads the fields of `phraseRange`'s
result unconditionally, so for a phrase with no descendant tokens it fails
with a runtime `TypeError` (modelled `none`) instead of returning an
identifier; it returns normally exactly when the phrase has a descendant
token. -/
theorem claim_C10 (posAt : Nat → Position) (p : PNode) :
    ParsedDocument.createAnonymousName posAt p = none ↔
      ParsedDocument.tokensOf p = [] := by
  unfold ParsedDocument.createAnonymousName ParsedDocument.phraseRange
  rw [firstToken_eq_head, lastToken_eq_getLast]
  rcases hh : (ParsedDocument.tokensOf p).head? with _ | f <;>
    rcases hg : (ParsedDocument.tokensOf p).getLast? with _ | g
  · simpa using List.head?_eq_none_iff.mp hh
  · exact absurd (List.head?_eq_none_iff.mp hh ▸ hg) (by simp)
  · exact absurd (List.getLast?_eq_none_iff.mp hg ▸ hh) (by simp)
  · have hne : ParsedDocument.tokensOf p ≠ [] := by
      intro hnil
      rw [hnil] at hh
      cases hh
    simpa using hne

/-- Claim C6: when type resolution yields no atomic class names, both
member-access strategies return the empty, non-incomplete result and throw
nothing. -/
theorem claim_C6 (maxSuggestions : Nat) (fuzzyStringMatch : String → String → Bool)
    (lookupMembersOnTypes : List MemberQuery → List PhpSymbol)
    (text thisName thisBaseName : String) :
    ScopedAccessCompletion.completions maxSuggestions fuzzyStringMatch
      lookupMembersOnTypes [] text thisName thisBaseName =
        Except.ok noCompletionResponse ∧
    ObjectAccessCompletion.completions maxSuggestions fuzzyStringMatch
      lookupMembersOnTypes [] text thisName thisBaseName =
        Except.ok noCompletionResponse :=
  ⟨rfl, rfl⟩

/-- Claim C7: a completion request for a document identifier absent from the
store returns the empty, non-incomplete result without raising. -/
theorem claim_C7 (documentStoreFind : String → Option CursorCtx)
    (strategies : List CompletionStrategy) (uri : String)
    (h : documentStoreFind uri = none) :
    CompletionProvider.provideCompletions documentStoreFind strategies uri =
      Except.ok noCompletionResponse := by
  unfold CompletionProvider.provideCompletions
  rw [h]

/-- Witness for claim C7: the empty store at a concrete URI. -/
theorem claim_C7_witness :
    CompletionProvider.provideCompletions (fun _ => none) [] "file:///closed.php" =
      Except.ok noCompletionResponse :=
  claim_C7 (fun _ => none) [] "file:///closed.php" rfl

/-- Claim C8: converting a candidate symbol to an item succeeds exactly on
the kinds the strategy expects — class constant, method or property for the
scoped strategy; method or property for the object strategy — and raises
`Invalid Argument` on every other kind. -/
theorem claim_C8 (s : PhpSymbol) :
    ((∃ item, ScopedAccessCompletion.toCompletionItem s = Except.ok item) ↔
      (s.kind = SymbolKind.ClassConstant ∨ s.kind = SymbolKind.Method ∨
        s.kind = SymbolKind.Property)) ∧
    ((∃ item, ObjectAccessCompletion.toCompletionItem s = Except.ok item) ↔
      (s.kind = SymbolKind.Method ∨ s.kind = SymbolKind.Property)) ∧
    ((¬(s.kind = SymbolKind.ClassConstant ∨ s.kind = SymbolKind.Method ∨
        s.kind = SymbolKind.Property)) →
      ScopedAccessCompletion.toCompletionItem s = Except.error "Invalid Argument") ∧
    ((¬(s.kind = SymbolKind.Method ∨ s.kind = SymbolKind.Property)) →
      ObjectAccessCompletion.toCompletionItem s = Except.error "Invalid Argument") := by
  unfold ScopedAccessCompletion.toCompletionItem ObjectAccessCompletion.toCompletionItem
  refine ⟨?_, ?_, ?_, ?_⟩ <;> split_ifs <;> simp_all

/-- The `Static` flag makes any bitwise-or with it nonzero. -/
theorem lor_static_ne_zero (x : Nat) : x ||| SymbolModifier.Static ≠ 0 := by
  intro h
  have h5 := congrArg (fun n => n.testBit 5) h
  simp only [Nat.testBit_or, Nat.zero_testBit, SymbolModifier.Static] at h5
  rw [show Nat.testBit 32 5 = true from by decide] at h5
  simp at h5

/-- Claim C2 (code bug): the object-access base-class member predicate
rejects every symbol.  The source negates
`s.modifiers & SymbolModifier.Private | SymbolModifier.Static`, which by JS
precedence always contains the `Static` bit and hence is never zero, so the
predicate is constantly false; in spec §8.6's scenario (class `A` with
private `f` and public `g`, enclosing scope `B extends A`), the instance
completion for prefix `"g"` therefore returns no items, although the spec
requires `g`. -/
theorem claim_C2_bug :
    (∀ (fuzzyStringMatch : String → String → Bool) (text : String) (s : PhpSymbol),
      ObjectAccessCompletion.createBaseMembersPredicate fuzzyStringMatch text s = false) ∧
    ObjectAccessCompletion.completions 100 (fun text nm => text.isPrefixOf nm)
      classAMembersLookup ["A"] "g" "B" "A" = Except.ok noCompletionResponse := by
  constructor
  · intro fuzzyStringMatch text s
    unfold ObjectAccessCompletion.createBaseMembersPredicate
    rw [decide_eq_false (lor_static_ne_zero (s.modifiers &&& SymbolModifier.Private))]
    simp
  · rfl

theorem find?_first_true (p : CompletionStrategy → Bool) :
    ∀ (pre post : List CompletionStrategy) (st : CompletionStrategy),
    (∀ s ∈ pre, p s = false) → p st = true →
    (pre ++ st :: post).find? p = some st := by
  intro pre
  induction pre with
  | nil =>
    intro post st _ hst
    simp [List.find?_cons, hst]
  | cons a as ih =>
    intro post st hpre hst
    have ha : p a = false := hpre a (by simp)
    simp only [List.cons_append, List.find?_cons, ha]
    exact ih post st (fun s hs => hpre s (by simp [hs])) hst

theorem isPhrase_namespaceName_not_qualified (node : Option PNode)
    (h : ParsedDocument.isPhrase node [PhraseType.NamespaceName] = true) :
    ParsedDocument.isPhrase node [PhraseType.FullyQualifiedName,
      PhraseType.QualifiedName, PhraseType.RelativeQualifiedName] = false := by
  rcases node with _ | (_ | ⟨pt, cs⟩) <;>
    simp_all [ParsedDocument.isPhrase]

/-- Claim C3 (amended): `provideCompletions` runs the first strategy of the
ordered list whose `canSuggest` holds, and returns the empty result when no
strategy matches; for a cursor on a name token inside a class-type
designator the class-type-designator strategy is selected.  Contrary to the
original claim, the general-name strategy's `canSuggest` never holds on
that shape: whenever the designator strategy's predicate holds, the token's
immediate parent is a namespace-name phrase, which the general-name
predicate rejects (it demands a qualified-name phrase as immediate
parent). -/
theorem claim_C3 :
    (∀ (documentStoreFind : String → Option CursorCtx) (uri : String)
      (ctx : CursorCtx) (pre post : List CompletionStrategy)
      (st : CompletionStrategy),
      documentStoreFind uri = some ctx →
      (∀ s ∈ pre, s.canSuggest ctx = false) → st.canSuggest ctx = true →
      CompletionProvider.provideCompletions documentStoreFind
        (pre ++ st :: post) uri = st.completions ctx) ∧
    (∀ (documentStoreFind : String → Option CursorCtx) (uri : String)
      (ctx : CursorCtx) (strategies : List CompletionStrategy),
      documentStoreFind uri = some ctx →
      (∀ s ∈ strategies, s.canSuggest ctx = false) →
      CompletionProvider.provideCompletions documentStoreFind strategies uri =
        Except.ok noCompletionResponse) ∧
    (∀ (ctdCompletions scopedCompletions objectCompletions
        simpleVariableCompletions nameCompletions :
          CursorCtx → Except String CompletionList) (uri : String),
      CompletionProvider.provideCompletions (fun _ => some ctdContext)
        (CompletionProvider.strategies ctdCompletions scopedCompletions
          objectCompletions simpleVariableCompletions nameCompletions) uri =
        ctdCompletions ctdContext) ∧
    (∀ ctx : CursorCtx, ClassTypeDesignatorCompletion.canSuggest ctx = true →
      NameCompletion.canSuggest ctx = false) := by
  refine ⟨?_, ?_, ?_, ?_⟩
  · intro documentStoreFind uri ctx pre post st hfind hpre hst
    unfold CompletionProvider.provideCompletions
    rw [hfind]
    show (match (pre ++ st :: post).find? (fun s => s.canSuggest ctx) with
      | some strategy => strategy.completions ctx
      | none => Except.ok noCompletionResponse) = st.completions ctx
    rw [find?_first_true (fun s => s.canSuggest ctx) pre post st hpre hst]
  · intro documentStoreFind uri ctx strategies hfind hnone
    unfold CompletionProvider.provideCompletions
    rw [hfind]
    show (match strategies.find? (fun s => s.canSuggest ctx) with
      | some strategy => strategy.completions ctx
      | none => Except.ok noCompletionResponse) = Except.ok noCompletionResponse
    rw [List.find?_eq_none.mpr (fun s hs => by simp [hnone s hs])]
  · intro c1 c2 c3 c4 c5 uri
    rfl
  · intro ctx h
    unfold ClassTypeDesignatorCompletion.canSuggest at h
    simp only [Bool.and_eq_true] at h
    obtain ⟨⟨⟨htok, hns⟩, hq⟩, hctd⟩ := h
    unfold NameCompletion.canSuggest
    rw [isPhrase_namespaceName_not_qualified ctx.ancestors[0]? hns]
    simp

/-- Counterexample for claim C3 as stated: at the concrete designator
context the class-type-designator predicate holds but the general-name
predicate does not, refuting that the latter "also holds for that node
shape". -/
theorem claim_C3_counterexample :
    ClassTypeDesignatorCompletion.canSuggest ctdContext = true ∧
    NameCompletion.canSuggest ctdContext = false := by
  constructor <;> rfl

/-- Witness for claim C3 at concrete inputs: a one-strategy list whose head
matches is dispatched to, and the exclusion instance at the designator
context. -/
theorem claim_C3_witness :
    CompletionProvider.provideCompletions (fun _ => some ctdContext)
      [⟨ClassTypeDesignatorCompletion.canSuggest, sampleProducer⟩]
      "file:///a.php" = sampleProducer ctdContext ∧
    NameCompletion.canSuggest ctdContext = false :=
  ⟨claim_C3.1 (fun _ => some ctdContext) "file:///a.php" ctdContext [] []
      ⟨ClassTypeDesignatorCompletion.canSuggest, sampleProducer⟩ rfl
      (fun s hs => by cases hs) (by rfl),
    claim_C3.2.2.2 ctdContext (by rfl)⟩

theorem mapM_ok_length {α β : Type} (f : α → Except String β) :
    ∀ (l : List α) (l2 : List β), l.mapM f = Except.ok l2 → l2.length = l.length := by
  intro l
  induction l with
  | nil =>
    intro l2 h
    rw [List.mapM_nil] at h
    cases h
    rfl
  | cons a as ih =>
    intro l2 h
    rw [List.mapM_cons] at h
    cases hfa : f a with
    | error e =>
      rw [hfa] at h
      simp [Bind.bind, Except.bind] at h
    | ok b =>
      rw [hfa] at h
      cases hfs : as.mapM f with
      | error e =>
        rw [hfs] at h
        simp [Bind.bind, Except.bind] at h
      | ok bs =>
        rw [hfs] at h
        simp only [Bind.bind, Except.bind, pure, Except.pure, Except.ok.injEq] at h
        subst h
        simp [ih bs hfs]

/-- Claim C1 (amended): the incompleteness flag is true exactly when the true
match count (keyword matches plus symbol-index matches) exceeds the
configured maximum, for every strategy.  The length cap holds exactly for
the member-access and variable strategies; for the two keyword-pushing
strategies (general name, class-type designator) it holds whenever the
keyword matches alone do not exceed the maximum, but when they do the
result keeps all keyword matches and its length exceeds the maximum (no
symbol items are added then). -/
theorem claim_C1 :
    (∀ (maxSuggestions : Nat) (fuzzy : String → String → Bool)
      (symbolMatch : String → (PhpSymbol → Bool) → List PhpSymbol)
      (resolveRelative : String → String) (ns : String)
      (qnt qpt : PhraseType) (text : String), text ≠ "" →
      ((NameCompletion.completions maxSuggestions fuzzy symbolMatch resolveRelative
          ns qnt qpt text).isIncomplete = true ↔
        (NameCompletion.keywordItems fuzzy qnt qpt text).length +
          (symbolMatch (if qnt = PhraseType.RelativeQualifiedName then resolveRelative text else text)
            NameCompletion.symbolFilter).length > maxSuggestions) ∧
      ((NameCompletion.keywordItems fuzzy qnt qpt text).length ≤ maxSuggestions →
        (NameCompletion.completions maxSuggestions fuzzy symbolMatch resolveRelative
          ns qnt qpt text).items.length =
          min ((NameCompletion.keywordItems fuzzy qnt qpt text).length +
            (symbolMatch (if qnt = PhraseType.RelativeQualifiedName then resolveRelative text else text)
              NameCompletion.symbolFilter).length) maxSuggestions) ∧
      (maxSuggestions < (NameCompletion.keywordItems fuzzy qnt qpt text).length →
        (NameCompletion.completions maxSuggestions fuzzy symbolMatch resolveRelative
          ns qnt qpt text).items.length =
          (NameCompletion.keywordItems fuzzy qnt qpt text).length)) ∧
    (∀ (maxSuggestions : Nat) (fuzzy : String → String → Bool)
      (symbolMatch : String → (PhpSymbol → Bool) → List PhpSymbol)
      (resolveRelative : String → String) (ns : String)
      (qnt : PhraseType) (text : String), text ≠ "" →
      ((ClassTypeDesignatorCompletion.completions maxSuggestions fuzzy symbolMatch
          resolveRelative ns qnt text).isIncomplete = true ↔
        (if qnt = PhraseType.QualifiedName then
            keywordCompletionItems fuzzy ClassTypeDesignatorCompletion.keywords text
          else []).length +
          (symbolMatch (if qnt = PhraseType.RelativeQualifiedName then resolveRelative text else text)
            ClassTypeDesignatorCompletion.symbolFilter).length > maxSuggestions) ∧
      ((if qnt = PhraseType.QualifiedName then
          keywordCompletionItems fuzzy ClassTypeDesignatorCompletion.keywords text
        else []).length ≤ maxSuggestions →
        (ClassTypeDesignatorCompletion.completions maxSuggestions fuzzy symbolMatch
          resolveRelative ns qnt text).items.length =
          min ((if qnt = PhraseType.QualifiedName then
              keywordCompletionItems fuzzy ClassTypeDesignatorCompletion.keywords text
            else []).length +
            (symbolMatch (if qnt = PhraseType.RelativeQualifiedName then resolveRelative text else text)
              ClassTypeDesignatorCompletion.symbolFilter).length) maxSuggestions) ∧
      (maxSuggestions < (if qnt = PhraseType.QualifiedName then
          keywordCompletionItems fuzzy ClassTypeDesignatorCompletion.keywords text
        else []).length →
        (ClassTypeDesignatorCompletion.completions maxSuggestions fuzzy symbolMatch
          resolveRelative ns qnt text).items.length =
          (if qnt = PhraseType.QualifiedName then
            keywordCompletionItems fuzzy ClassTypeDesignatorCompletion.keywords text
          else []).length)) ∧
    (∀ (maxSuggestions : Nat)
      (symbolMatch : String → (PhpSymbol → Bool) → List PhpSymbol)
      (scopeChildren : List PhpSymbol) (text : String), text ≠ "" →
      ((SimpleVariableCompletion.completions maxSuggestions symbolMatch
          scopeChildren text).isIncomplete = true ↔
        (SimpleVariableCompletion.varSymbols symbolMatch scopeChildren text).length >
          maxSuggestions) ∧
      (SimpleVariableCompletion.completions maxSuggestions symbolMatch
        scopeChildren text).items.length =
        min (SimpleVariableCompletion.varSymbols symbolMatch scopeChildren text).length
          maxSuggestions) ∧
    (∀ (maxSuggestions : Nat) (fuzzy : String → String → Bool)
      (lookup : List MemberQuery → List PhpSymbol) (typeNames : List String)
      (text thisName thisBaseName : String) (r : CompletionList),
      typeNames ≠ [] →
      ScopedAccessCompletion.completions maxSuggestions fuzzy lookup typeNames
        text thisName thisBaseName = Except.ok r →
      (r.isIncomplete = true ↔
        (lookup (ScopedAccessCompletion.memberQueries fuzzy typeNames text
          thisName thisBaseName)).length > maxSuggestions) ∧
      r.items.length =
        min (lookup (ScopedAccessCompletion.memberQueries fuzzy typeNames text
          thisName thisBaseName)).length maxSuggestions) ∧
    (∀ (maxSuggestions : Nat) (fuzzy : String → String → Bool)
      (lookup : List MemberQuery → List PhpSymbol) (typeNames : List String)
      (text thisName thisBaseName : String) (r : CompletionList),
      typeNames ≠ [] →
      ObjectAccessCompletion.completions maxSuggestions fuzzy lookup typeNames
        text thisName thisBaseName = Except.ok r →
      (r.isIncomplete = true ↔
        (lookup (ObjectAccessCompletion.memberQueries fuzzy typeNames text
          thisName thisBaseName)).length > maxSuggestions) ∧
      r.items.length =
        min (lookup (ObjectAccessCompletion.memberQueries fuzzy typeNames text
          thisName thisBaseName)).length maxSuggestions) := by
  refine ⟨?_, ?_, ?_, ?_, ?_⟩
  · intro maxSuggestions fuzzy symbolMatch resolveRelative ns qnt qpt text htext
    unfold NameCompletion.completions
    rw [if_neg htext]
    refine ⟨?_, ?_, ?_⟩
    · simp only [List.length_append, List.length_map, List.length_take,
        decide_eq_true_eq]
      omega
    · intro hkw
      simp only [List.length_append, List.length_map, List.length_take]
      omega
    · intro hkw
      simp only [List.length_append, List.length_map, List.length_take]
      omega
  · intro maxSuggestions fuzzy symbolMatch resolveRelative ns qnt text htext
    unfold ClassTypeDesignatorCompletion.completions
    rw [if_neg htext]
    refine ⟨?_, ?_, ?_⟩
    · simp only [List.length_append, List.length_map, List.length_take,
        decide_eq_true_eq]
      omega
    · intro hkw
      simp only [List.length_append, List.length_map, List.length_take]
      omega
    · intro hkw
      simp only [List.length_append, List.length_map, List.length_take]
      omega
  · intro maxSuggestions symbolMatch scopeChildren text htext
    unfold SimpleVariableCompletion.completions
    rw [if_neg htext]
    refine ⟨?_, ?_⟩
    · simp only [decide_eq_true_eq]
    · simp only [List.length_map, List.length_take]
      omega
  · intro maxSuggestions fuzzy lookup typeNames text thisName thisBaseName r htn h
    unfold ScopedAccessCompletion.completions at h
    rw [if_neg (by simpa using htn)] at h
    dsimp only at h
    rcases hm : ((lookup (ScopedAccessCompletion.memberQueries fuzzy typeNames text
        thisName thisBaseName)).take
        (min (lookup (ScopedAccessCompletion.memberQueries fuzzy typeNames text
          thisName thisBaseName)).length maxSuggestions)).mapM
        ScopedAccessCompletion.toCompletionItem with e | items
    · rw [hm] at h
      simp [Bind.bind, Except.bind] at h
    · rw [hm] at h
      simp only [Bind.bind, Except.bind, pure, Except.pure, Except.ok.injEq] at h
      subst h
      refine ⟨by simp, ?_⟩
      have hlen := mapM_ok_length ScopedAccessCompletion.toCompletionItem _ _ hm
      simp only [hlen, List.length_take]
      omega
  · intro maxSuggestions fuzzy lookup typeNames text thisName thisBaseName r htn h
    unfold ObjectAccessCompletion.completions at h
    rw [if_neg (by simpa using htn)] at h
    dsimp only at h
    rcases hm : ((lookup (ObjectAccessCompletion.memberQueries fuzzy typeNames text
        thisName thisBaseName)).take
        (min (lookup (ObjectAccessCompletion.memberQueries fuzzy typeNames text
          thisName thisBaseName)).length maxSuggestions)).mapM
        ObjectAccessCompletion.toCompletionItem with e | items
    · rw [hm] at h
      simp [Bind.bind, Except.bind] at h
    · rw [hm] at h
      simp only [Bind.bind, Except.bind, pure, Except.pure, Except.ok.injEq] at h
      subst h
      refine ⟨by simp, ?_⟩
      have hlen := mapM_ok_length ObjectAccessCompletion.toCompletionItem _ _ hm
      simp only [hlen, List.length_take]
      omega

/-- Counterexample for claim C1 as stated: with a maximum of 1, a
statement-position name request whose fuzzy matcher accepts every keyword
has 55 keyword matches and no symbol matches, so the match count 55 exceeds
the maximum yet the result carries all 55 items instead of exactly 1. -/
theorem claim_C1_counterexample :
    (NameCompletion.completions 1 (fun _ _ => true) (fun _ _ => [])
      (fun t => t) "" PhraseType.QualifiedName PhraseType.StatementList "a").items.length = 55 ∧
    (NameCompletion.completions 1 (fun _ _ => true) (fun _ _ => [])
      (fun t => t) "" PhraseType.QualifiedName PhraseType.StatementList "a").isIncomplete = true ∧
    ¬((NameCompletion.completions 1 (fun _ _ => true) (fun _ _ => [])
      (fun t => t) "" PhraseType.QualifiedName PhraseType.StatementList "a").items.length ≤ 1) := by
  refine ⟨by rfl, by rfl, by decide⟩

/-- Witness for claim C1 at concrete inputs: four matching classes against a
maximum of 2 in a fully-qualified name position give exactly 2 items. -/
theorem claim_C1_witness :
    (NameCompletion.completions 2 (fun _ _ => false)
      (fun _ _ => [sampleClass "A", sampleClass "B", sampleClass "C", sampleClass "D"])
      (fun t => t) "" PhraseType.FullyQualifiedName PhraseType.StatementList
      "a").items.length = min (0 + 4) 2 :=
  (claim_C1.1 2 (fun _ _ => false)
    (fun _ _ => [sampleClass "A", sampleClass "B", sampleClass "C", sampleClass "D"])
    (fun t => t) "" PhraseType.FullyQualifiedName PhraseType.StatementList
    "a" (by decide)).2.1 (by decide)

end Intelephense
